import Mathlib

/-!
Shallow embedding of the AudioSync server core (src/server/device_manager.py,
src/server/main.py, src/server/audio_streamer.py).

Python wall-clock times, latencies and volumes are modelled as rationals (ℚ);
Python dicts (which preserve insertion order, and where assignment to an
existing key replaces the value in place) are modelled as association lists
with an order-preserving upsert.  Each Lean definition is a direct
transcription of the corresponding Python function, with the current time
`now` passed explicitly where the source calls `time.time()`.
-/

namespace AudioSync

/-- Order-preserving insert-or-replace for an association list, matching
Python dict assignment `d[k] = v` (existing key keeps its position, new key
is appended). -/
def upsert (k : String) (v : β) : List (String × β) → List (String × β)
  | [] => [(k, v)]
  | (k', v') :: rest => if k' = k then (k, v) :: rest else (k', v') :: upsert k v rest

/-- Association-list lookup, matching Python `d.get(k)` / `d[k]`. -/
def alookup (k : String) : List (String × β) → Option β
  | [] => none
  | (k', v) :: rest => if k' = k then some v else alookup k rest

/-- Key deletion, matching Python `del d[k]` (guarded by `k in d`); a dict
holds each key at most once, so dropping every pair with the key is exact. -/
def adelete (k : String) (l : List (String × β)) : List (String × β) :=
  l.filter fun p => p.1 ≠ k

/-- The `device_info` dict stored by `DeviceManager.update_device`
(src/server/main.py `handle_device_info` builds these fields; `update_device`
then sets `last_seen`). -/
structure DeviceInfo where
  id : String
  name : String
  platform : String
  latency : ℚ
  last_seen : ℚ
  volume : Option ℚ := none
  enabled : Option Bool := none
deriving DecidableEq, Repr

/-- State of `DeviceManager` (src/server/device_manager.py, `__init__`):
`devices` and `device_latencies` dicts; `max_latency_samples = 10` is kept
as the literal 10 below. -/
structure DeviceManager where
  devices : List (String × DeviceInfo)
  device_latencies : List (String × List ℚ)
deriving DecidableEq, Repr

/-- `DeviceManager()` — both dicts empty. -/
def DeviceManager.empty : DeviceManager := ⟨[], []⟩

/-- `update_device` (device_manager.py lines 14-20): set `last_seen` to the
current time, store the info, and create an empty latency list if absent. -/
def DeviceManager.update_device (dm : DeviceManager) (device_id : String)
    (device_info : DeviceInfo) (now : ℚ) : DeviceManager :=
  { devices := upsert device_id { device_info with last_seen := now } dm.devices
    device_latencies :=
      match alookup device_id dm.device_latencies with
      | some _ => dm.device_latencies
      | none => dm.device_latencies ++ [(device_id, [])] }

/-- `remove_device` (lines 22-27): delete from both dicts if present. -/
def DeviceManager.remove_device (dm : DeviceManager) (device_id : String) :
    DeviceManager :=
  { devices := adelete device_id dm.devices
    device_latencies := adelete device_id dm.device_latencies }

/-- `get_average_latency` (lines 59-66): mean of the stored window, 0.0 if
the window is empty or the device has no window. -/
def DeviceManager.get_average_latency (dm : DeviceManager) (device_id : String) : ℚ :=
  let latencies := (alookup device_id dm.device_latencies).getD []
  if latencies = [] then 0 else latencies.sum / latencies.length

/-- `get_device_list` (lines 29-41): devices with `now - last_seen < 30`,
each annotated with its average latency. -/
def DeviceManager.get_device_list (dm : DeviceManager) (now : ℚ) :
    List (DeviceInfo × ℚ) :=
  (dm.devices.filter fun p => decide (now - p.2.last_seen < 30)).map
    fun p => (p.2, dm.get_average_latency p.1)

/-- `get_device` (lines 43-45). -/
def DeviceManager.get_device (dm : DeviceManager) (device_id : String) :
    Option DeviceInfo :=
  alookup device_id dm.devices

/-- The list update performed by `update_device_latency` on one window:
append, then `pop(0)` when the length exceeds `max_latency_samples = 10`. -/
def pushLatency (latencies : List ℚ) (latency : ℚ) : List ℚ :=
  let l := latencies ++ [latency]
  if l.length > 10 then l.tail else l

/-- `update_device_latency` (lines 47-57): create the window if absent
(no check against `devices`!), append the sample, evict the oldest past 10. -/
def DeviceManager.update_device_latency (dm : DeviceManager) (device_id : String)
    (latency : ℚ) : DeviceManager :=
  let base :=
    match alookup device_id dm.device_latencies with
    | some _ => dm.device_latencies
    | none => dm.device_latencies ++ [(device_id, [])]
  { devices := dm.devices
    device_latencies :=
      upsert device_id (pushLatency ((alookup device_id base).getD []) latency) base }

/-- `get_max_latency` (lines 68-76): fold of `max` over the average latency
of every key of `devices` (active or not), starting from 0.0. -/
def DeviceManager.get_max_latency (dm : DeviceManager) : ℚ :=
  dm.devices.foldl (fun m p => max m (dm.get_average_latency p.1)) 0

/-- `get_synchronization_delay` (lines 123-127): `get_max_latency() + 0.1`. -/
def DeviceManager.get_synchronization_delay (dm : DeviceManager) : ℚ :=
  dm.get_max_latency + 1/10

/-- `cleanup_inactive_devices` (lines 78-90): collect ids with
`now - last_seen > timeout`, remove each, return how many. -/
def DeviceManager.cleanup_inactive_devices (dm : DeviceManager) (now : ℚ)
    (timeout : ℚ) : DeviceManager × ℕ :=
  let inactive :=
    (dm.devices.filter fun p => decide (now - p.2.last_seen > timeout)).map
      fun p => p.1
  (inactive.foldl (fun d i => d.remove_device i) dm, inactive.length)

/-! ### Server state and handlers (src/server/main.py) -/

/-- Outbound messages the server sends (main.py: the `json.dumps` payloads).
Chunk payloads are abstracted as the list of frames they carry. -/
inductive ServerMsg where
  | connection (client_id : String)
  | device_list (devices : List (DeviceInfo × ℚ))
  | prepare_streaming (audio_file : String) (sync_timestamp : ℚ)
      (sample_rate channels : ℕ)
  | audio_chunk (chunk_id : ℕ) (timestamp : ℚ) (data : List (ℚ × ℚ))
      (is_final : Bool)
  | stop_streaming
  | sync_response (server_timestamp : ℚ) (client_id : String)
deriving DecidableEq

/-- A broadcast event: the message paired with the recipient client id. -/
abbrev Sent := String × ServerMsg

/-- The mutable fields of `AudioSyncServer` (main.py `__init__`) that the
handlers below touch: the `clients` dict (modelled by its ordered key list —
the websocket values are external transport state), the device manager, the
streaming flag, the current file and the sync timestamp. -/
structure ServerState where
  clients : List String
  device_manager : DeviceManager
  is_streaming : Bool
  current_audio_file : Option String
  sync_timestamp : ℚ
deriving DecidableEq

/-- `AudioSyncServer.__init__`: no clients, fresh manager, not streaming,
no file, `sync_timestamp = 0`. -/
def ServerState.init : ServerState :=
  ⟨[], DeviceManager.empty, false, none, 0⟩

/-- Broadcast of one message to every connected client
(main.py `asyncio.gather(*[client.send(message) ...])`). -/
def broadcastTo (clients : List String) (m : ServerMsg) : List Sent :=
  clients.map fun c => (c, m)

/-- `start_audio_streaming` (main.py lines 108-133): no-op while already
streaming; otherwise set the flag, record the file (default
`"default_audio.wav"`), set `sync_timestamp = time.time() + 2`, and broadcast
the prepare message.  Note the source never consults
`get_synchronization_delay` here. -/
def ServerState.start_audio_streaming (s : ServerState) (now : ℚ)
    (audio_file : Option String) : ServerState × List Sent :=
  if s.is_streaming then (s, [])
  else
    let file := audio_file.getD "default_audio.wav"
    let ts := now + 2
    let s' := { s with is_streaming := true
                       current_audio_file := some file
                       sync_timestamp := ts }
    (s', broadcastTo s.clients (.prepare_streaming file ts 44100 2))

/-- `stop_audio_streaming` (main.py lines 178-190): unconditionally clear the
flag and broadcast a stop message to every connected client. -/
def ServerState.stop_audio_streaming (s : ServerState) : ServerState × List Sent :=
  ({ s with is_streaming := false }, broadcastTo s.clients .stop_streaming)

/-! ### Chunk splitting (src/server/audio_streamer.py `split_into_chunks`) -/

/-- The slicing loop `for i in range(0, len(audio_data), samples_per_chunk)`
of `split_into_chunks`, with window size `k + 1` (the `+ 1` keeps the step
positive; the `samples_per_chunk = 0` case is handled by the caller below).
`audio_data[i : i + spc]` for the successive window starts. -/
def chunksWF (k : ℕ) : List α → List (List α)
  | [] => []
  | a :: l => ((a :: l).take (k + 1)) :: chunksWF k (l.drop k)
termination_by l => l.length
decreasing_by simp; omega

/-- `split_into_chunks` (audio_streamer.py lines 85-99).  `audio_data` is the
list of frames of the numpy array and `channels` its `shape[1]` in the 2-D
branch (`samples_per_chunk = chunk_size // (shape[1] * 4)`, 4 bytes per
float32); the 1-D branch (`chunk_size // 4`) is exactly `channels = 1`.
When `samples_per_chunk = 0`, Python's `range(0, n, 0)` raises `ValueError`,
modelled by `none`. -/
def split_into_chunks (audio_data : List α) (chunk_size : ℕ) (channels : ℕ) :
    Option (List (List α)) :=
  match chunk_size / (channels * 4) with
  | 0 => none
  | k + 1 => some (chunksWF k audio_data)

/-! ### Chunk pacing messages (src/server/main.py `stream_audio_chunks`) -/

/-- `chunk_duration = chunk_size / (44100 * 2 * 2)` with
`chunk_size = 4096` (main.py line 142). -/
def chunk_duration : ℚ := 4096 / (44100 * 2 * 2)

/-- Target timestamp of chunk `i`
(`chunk_timestamp = self.sync_timestamp + (i * chunk_duration)`,
main.py line 152): a function of the sync timestamp and the index only —
it does not read the clock, so it cannot depend on when earlier chunks
were actually sent. -/
def chunk_timestamp (sync_timestamp : ℚ) (i : ℕ) : ℚ :=
  sync_timestamp + i * chunk_duration

/-- The `for i, chunk in enumerate(chunks)` loop body of
`stream_audio_chunks` (main.py lines 148-160), emitting one `audio_chunk`
message per chunk; `total` is `len(chunks)` and `i` the running index. -/
def streamMsgsAux (sync_timestamp : ℚ) (total : ℕ) (i : ℕ) :
    List (List (ℚ × ℚ)) → List ServerMsg
  | [] => []
  | c :: rest =>
    .audio_chunk i (chunk_timestamp sync_timestamp i) c (decide (i = total - 1))
      :: streamMsgsAux sync_timestamp total (i + 1) rest

/-- The full sequence of `audio_chunk` messages produced by one run of the
delivery loop that is not interrupted by `stop`. -/
def stream_messages (sync_timestamp : ℚ) (chunks : List (List (ℚ × ℚ))) :
    List ServerMsg :=
  streamMsgsAux sync_timestamp chunks.length 0 chunks

/-- Timestamp carried by a message (the `timestamp` field of `audio_chunk`). -/
def ServerMsg.timestamp : ServerMsg → ℚ
  | .audio_chunk _ ts _ _ => ts
  | .prepare_streaming _ ts _ _ => ts
  | .sync_response ts _ => ts
  | _ => 0

/-! ### Client registration (src/server/main.py `register_client`) -/

/-- `client_id = f"client_{len(self.clients)}"` (main.py line 31). -/
def mkClientId (n : ℕ) : String := "client_" ++ Nat.repr n

/-- The id assigned to the next connecting client, given the current ordered
key list of the `clients` dict. -/
def newClientId (clients : List String) : String := mkClientId clients.length

/-- `register_client`'s effect on the key set of `self.clients`:
`self.clients[client_id] = websocket` keeps the key list unchanged when the
key already exists (dict assignment replaces in place) and appends it
otherwise. -/
def connectClient (clients : List String) : List String :=
  if newClientId clients ∈ clients then clients
  else clients ++ [newClientId clients]

/-- A connect or disconnect event on the websocket handler
(main.py lines 29-56: registration at entry, `del self.clients[client_id]`
in the `finally` block). -/
inductive ClientEvent where
  | connect
  | disconnect (id : String)

/-- One event's effect on the `clients` key list (`del self.clients[client_id]`
drops the key; the key list holds each id at most once). -/
def applyEvent (clients : List String) : ClientEvent → List String
  | .connect => connectClient clients
  | .disconnect id => clients.filter fun c => c ≠ id

/-- A whole history of connect/disconnect events, oldest first. -/
def applyEvents (clients : List String) (es : List ClientEvent) : List String :=
  es.foldl applyEvent clients

/-! ### Concrete states used for counterexamples and witnesses -/

/-- A device record with the given id and last-seen time (other attributes
as `handle_device_info` defaults them). -/
def mkDevice (id : String) (last_seen : ℚ) : DeviceInfo :=
  { id := id, name := "Unknown Device", platform := "unknown",
    latency := 0, last_seen := last_seen }

/-- Registry holding one device `"a"` that was last seen 100 s ago (at
`now = 0`) with one recorded latency sample of 0.5 s. -/
def dmStale : DeviceManager :=
  { devices := [("a", mkDevice "a" (-100))]
    device_latencies := [("a", [1/2])] }

/-- Registry holding one device `"a"` last seen 31 s ago (at `now = 0`). -/
def dm31 : DeviceManager :=
  { devices := [("a", mkDevice "a" (-31))]
    device_latencies := [("a", [])] }

/-- Registry holding one device `"a"` last seen 61 s ago (at `now = 0`). -/
def dm61 : DeviceManager :=
  { devices := [("a", mkDevice "a" (-61))]
    device_latencies := [("a", [])] }

/-- An idle server with one connected client and an empty registry. -/
def idleServerOneClient : ServerState :=
  { clients := ["client_0"]
    device_manager := DeviceManager.empty
    is_streaming := false
    current_audio_file := none
    sync_timestamp := 0 }

/-- The connect/connect/disconnect history after which the next connect
reuses a live identifier. -/
def reuseHistory : List ClientEvent :=
  [.connect, .connect, .disconnect "client_0"]

/-- Registry whose device `"a"` already holds a full window of 10 latency
samples. -/
def dmTen : DeviceManager :=
  { devices := [("a", mkDevice "a" 0)]
    device_latencies := [("a", [1, 2, 3, 4, 5, 6, 7, 8, 9, 10])] }

/-- Every latency window stored in the registry holds at most
`max_latency_samples = 10` entries. -/
def WindowsBounded (dm : DeviceManager) : Prop :=
  ∀ p ∈ dm.device_latencies, p.2.length ≤ 10

/-- A two-chunk stereo buffer split, used to instantiate the pacing
theorems on concrete data. -/
def chunks2 : List (List (ℚ × ℚ)) := [[(0, 0)], [(0, 0)]]

/-! ### Injectivity of `Nat.repr` (for the `client_{n}` identifier scheme) -/

/-- Numeric value of a decimal digit character. -/
def digitVal (c : Char) : ℕ := c.toNat - 48

/-- Value of a most-significant-first list of decimal digit characters. -/
def charsVal (l : List Char) : ℕ := l.foldl (fun a c => 10 * a + digitVal c) 0

/-- Reference decimal rendering of a natural number, msb first. -/
def natChars (n : ℕ) : List Char :=
  if n < 10 then [Nat.digitChar n]
  else natChars (n / 10) ++ [Nat.digitChar (n % 10)]
termination_by n
decreasing_by exact Nat.div_lt_self (by omega) (by norm_num)

theorem natChars_lt (n : ℕ) (h : n < 10) : natChars n = [Nat.digitChar n] := by
  rw [natChars, if_pos h]

theorem natChars_ge (n : ℕ) (h : ¬ n < 10) :
    natChars n = natChars (n / 10) ++ [Nat.digitChar (n % 10)] := by
  conv_lhs => rw [natChars]
  rw [if_neg h]

theorem toDigitsCore_eq_natChars :
    ∀ (fuel n : ℕ) (ds : List Char), n < fuel →
      Nat.toDigitsCore 10 fuel n ds = natChars n ++ ds := by
  intro fuel
  induction fuel with
  | zero => omega
  | succ f ih =>
    intro n ds h
    rw [Nat.toDigitsCore]
    by_cases h10 : n / 10 = 0
    · have hn : n < 10 := by
        by_contra hge
        have : 1 ≤ n / 10 := Nat.one_le_div_iff (by norm_num) |>.mpr (by omega)
        omega
      simp only [h10, if_pos]
      rw [natChars_lt n hn, Nat.mod_eq_of_lt hn]
      simp
    · have hn : ¬ n < 10 := by
        intro hlt
        exact h10 (Nat.div_eq_of_lt hlt)
      have hlt : n / 10 < f := by
        have h1 : n / 10 < n := Nat.div_lt_self (by omega) (by norm_num)
        omega
      simp only [h10, if_neg, ite_false]
      rw [ih (n / 10) (Nat.digitChar (n % 10) :: ds) hlt]
      rw [natChars_ge n hn]
      simp

theorem toDigits_eq_natChars (n : ℕ) : Nat.toDigits 10 n = natChars n := by
  have h := toDigitsCore_eq_natChars (n + 1) n [] (Nat.lt_succ_self n)
  simpa [Nat.toDigits] using h

theorem digitVal_digitChar (k : ℕ) (h : k < 10) :
    digitVal (Nat.digitChar k) = k := by
  interval_cases k <;> rfl

theorem charsVal_append_singleton (l : List Char) (c : Char) :
    charsVal (l ++ [c]) = 10 * charsVal l + digitVal c := by
  simp [charsVal, List.foldl_append]

theorem charsVal_natChars (n : ℕ) : charsVal (natChars n) = n := by
  induction n using natChars.induct with
  | case1 n h =>
    rw [natChars, if_pos h]
    have : charsVal [Nat.digitChar n] = digitVal (Nat.digitChar n) := by
      simp [charsVal]
    rw [this, digitVal_digitChar n h]
  | case2 n h ih =>
    rw [natChars, if_neg h]
    rw [charsVal_append_singleton, ih,
      digitVal_digitChar (n % 10) (Nat.mod_lt n (by norm_num))]
    omega

theorem natChars_injective : Function.Injective natChars := by
  intro m n h
  have := congrArg charsVal h
  rwa [charsVal_natChars, charsVal_natChars] at this

theorem repr_data_eq (n : ℕ) : (Nat.repr n).data = natChars n := by
  rw [Nat.repr, toDigits_eq_natChars]
  rfl

theorem string_data_append (a b : String) :
    (a ++ b).data = a.data ++ b.data := by
  cases a
  cases b
  rfl

theorem mkClientId_injective : Function.Injective mkClientId := by
  intro m n h
  have hd := congrArg String.data h
  rw [mkClientId, mkClientId, string_data_append, string_data_append,
    repr_data_eq, repr_data_eq] at hd
  exact natChars_injective (List.append_cancel_left hd)

/-! ### Association-list lemmas -/

theorem alookup_cons (k : String) (p : String × β) (rest : List (String × β)) :
    alookup k (p :: rest) = if p.1 = k then some p.2 else alookup k rest := rfl

theorem upsert_cons (k : String) (v : β) (p : String × β)
    (rest : List (String × β)) :
    upsert k v (p :: rest) =
      if p.1 = k then (k, v) :: rest else p :: upsert k v rest := rfl

theorem alookup_upsert_self (k : String) (v : β) :
    ∀ l : List (String × β), alookup k (upsert k v l) = some v := by
  intro l
  induction l with
  | nil => simp [upsert, alookup]
  | cons p rest ih =>
    rw [upsert_cons]
    by_cases h : p.1 = k
    · rw [if_pos h, alookup_cons, if_pos rfl]
    · rw [if_neg h, alookup_cons, if_neg h, ih]

theorem alookup_append_none (k : String) (l1 l2 : List (String × β))
    (h : alookup k l1 = none) : alookup k (l1 ++ l2) = alookup k l2 := by
  induction l1 with
  | nil => simp
  | cons p rest ih =>
    rw [alookup_cons] at h
    by_cases hp : p.1 = k
    · rw [if_pos hp] at h
      cases h
    · rw [if_neg hp] at h
      rw [List.cons_append, alookup_cons, if_neg hp]
      exact ih h

theorem alookup_adelete (k k' : String) (l : List (String × β)) :
    alookup k (adelete k' l) = if k = k' then none else alookup k l := by
  induction l with
  | nil => simp [adelete, alookup]
  | cons p rest ih =>
    rw [adelete] at ih ⊢
    rw [List.filter_cons]
    by_cases hp : p.1 = k'
    · rw [if_neg (by simp [hp])]
      rw [ih]
      by_cases hk : k = k'
      · rw [if_pos hk, if_pos hk]
      · have hpk : ¬ p.1 = k := fun h => hk (by rw [← h, hp])
        rw [if_neg hk, if_neg hk, alookup_cons, if_neg hpk]
    · rw [if_pos (by simp [hp])]
      rw [alookup_cons, alookup_cons]
      by_cases hpk : p.1 = k
      · have hk : ¬ k = k' := fun h => hp (by rw [hpk, h])
        rw [if_pos hpk, if_neg hk, if_pos hpk]
      · rw [if_neg hpk, if_neg hpk, ih]

theorem alookup_mem (k : String) (v : β) :
    ∀ l : List (String × β), alookup k l = some v → (k, v) ∈ l := by
  intro l
  induction l with
  | nil => simp [alookup]
  | cons p rest ih =>
    rw [alookup_cons]
    by_cases hp : p.1 = k
    · rw [if_pos hp]
      intro h
      have hv : p.2 = v := by
        cases h
        rfl
      have : (k, v) = p := by
        rw [← hp, ← hv]
      rw [this]
      exact List.mem_cons_self p rest
    · rw [if_neg hp]
      intro h
      exact List.mem_cons_of_mem _ (ih h)

theorem mem_upsert (q : String × β) (k : String) (v : β) :
    ∀ l : List (String × β), q ∈ upsert k v l → q = (k, v) ∨ q ∈ l := by
  intro l
  induction l with
  | nil => simp [upsert]
  | cons p rest ih =>
    rw [upsert_cons]
    by_cases hp : p.1 = k
    · rw [if_pos hp]
      intro h
      rcases List.mem_cons.mp h with h | h
      · exact Or.inl h
      · exact Or.inr (List.mem_cons_of_mem _ h)
    · rw [if_neg hp]
      intro h
      rcases List.mem_cons.mp h with h | h
      · exact Or.inr (h ▸ List.mem_cons_self p rest)
      · rcases ih h with h | h
        · exact Or.inl h
        · exact Or.inr (List.mem_cons_of_mem _ h)

/-! ### Latency-window lemmas -/

theorem pushLatency_length_le (l : List ℚ) (x : ℚ) (h : l.length ≤ 10) :
    (pushLatency l x).length ≤ 10 := by
  unfold pushLatency
  by_cases hlen : (l ++ [x]).length > 10
  · rw [if_pos hlen, List.length_tail]
    simp only [List.length_append, List.length_singleton]
    omega
  · rw [if_neg hlen]
    omega

theorem pushLatency_full (l : List ℚ) (x : ℚ) (h : l.length = 10) :
    pushLatency l x = l.tail ++ [x] := by
  unfold pushLatency
  have hlen : (l ++ [x]).length > 10 := by
    simp only [List.length_append, List.length_singleton]
    omega
  rw [if_pos hlen]
  cases l with
  | nil => simp at h
  | cons a t => rfl

theorem pushLatency_not_full (l : List ℚ) (x : ℚ) (h : l.length < 10) :
    pushLatency l x = l ++ [x] := by
  unfold pushLatency
  have hlen : ¬ (l ++ [x]).length > 10 := by
    simp only [List.length_append, List.length_singleton]
    omega
  rw [if_neg hlen]

/-- The window stored for `device_id` after `update_device_latency` is
exactly the FIFO push of the sample onto the previous window (empty if there
was none). -/
theorem update_device_latency_window (dm : DeviceManager) (id : String) (x : ℚ) :
    alookup id (dm.update_device_latency id x).device_latencies =
      some (pushLatency ((alookup id dm.device_latencies).getD []) x) := by
  unfold DeviceManager.update_device_latency
  cases h : alookup id dm.device_latencies with
  | some l =>
    simp only [h, Option.getD_some]
    rw [alookup_upsert_self]
  | none =>
    have hb : alookup id (dm.device_latencies ++ [(id, [])]) = some ([] : List ℚ) := by
      rw [alookup_append_none _ _ _ h, alookup_cons, if_pos rfl]
    simp only [h, hb, Option.getD_some, Option.getD_none]
    rw [alookup_upsert_self]

/-- Untouched keys: `update_device_latency` only rewrites the window of its
own device id, and never touches `devices`. -/
theorem update_device_latency_devices (dm : DeviceManager) (id : String) (x : ℚ) :
    (dm.update_device_latency id x).devices = dm.devices := rfl

theorem windowsBounded_update (dm : DeviceManager) (id : String) (x : ℚ)
    (h : WindowsBounded dm) : WindowsBounded (dm.update_device_latency id x) := by
  intro p hp
  unfold DeviceManager.update_device_latency at hp
  simp only at hp
  have hbase : ∀ q : String × List ℚ,
      q ∈ (match alookup id dm.device_latencies with
           | some _ => dm.device_latencies
           | none => dm.device_latencies ++ [(id, [])]) →
      q.2.length ≤ 10 := by
    intro q hq
    cases hl : alookup id dm.device_latencies with
    | some l =>
      rw [hl] at hq
      exact h q hq
    | none =>
      rw [hl] at hq
      rcases List.mem_append.mp hq with hq | hq
      · exact h q hq
      · have : q = (id, ([] : List ℚ)) := by simpa using hq
        rw [this]
        simp
  rcases mem_upsert _ _ _ _ hp with hq | hq
  · rw [hq]
    apply pushLatency_length_le
    cases hl : alookup id (match alookup id dm.device_latencies with
        | some _ => dm.device_latencies
        | none => dm.device_latencies ++ [(id, [])]) with
    | some l =>
      simp only [hl, Option.getD_some]
      exact hbase (id, l) (alookup_mem _ _ _ hl)
    | none => simp [hl]
  · exact hbase p hq

theorem windowsBounded_foldl (calls : List (String × ℚ)) :
    ∀ dm : DeviceManager, WindowsBounded dm →
      WindowsBounded (calls.foldl (fun d c => d.update_device_latency c.1 c.2) dm) := by
  induction calls with
  | nil => intro dm h; exact h
  | cons c rest ih =>
    intro dm h
    exact ih _ (windowsBounded_update dm c.1 c.2 h)

/-! ### Active-list and cleanup lemmas -/

/-- Everything `get_device_list` returns was seen within the last 30 s. -/
theorem mem_get_device_list_recent (dm : DeviceManager) (now : ℚ)
    (q : DeviceInfo × ℚ) (h : q ∈ dm.get_device_list now) :
    now - q.1.last_seen < 30 := by
  unfold DeviceManager.get_device_list at h
  rcases List.mem_map.mp h with ⟨p, hp, hq⟩
  rcases List.mem_filter.mp hp with ⟨_, hcond⟩
  have := of_decide_eq_true hcond
  rw [← hq]
  exact this

theorem get_device_remove (dm : DeviceManager) (id j : String) :
    (dm.remove_device j).get_device id =
      if id = j then none else dm.get_device id := by
  unfold DeviceManager.remove_device DeviceManager.get_device
  exact alookup_adelete id j dm.devices

theorem get_device_foldl_remove_none (js : List String) :
    ∀ dm : DeviceManager, ∀ id : String, dm.get_device id = none →
      (js.foldl (fun d i => d.remove_device i) dm).get_device id = none := by
  induction js with
  | nil => intro dm id h; exact h
  | cons j rest ih =>
    intro dm id h
    apply ih
    rw [get_device_remove]
    by_cases hj : id = j
    · rw [if_pos hj]
    · rw [if_neg hj]
      exact h

theorem get_device_foldl_remove (js : List String) :
    ∀ dm : DeviceManager, ∀ id : String, id ∈ js →
      (js.foldl (fun d i => d.remove_device i) dm).get_device id = none := by
  induction js with
  | nil => intro dm id h; simp at h
  | cons j rest ih =>
    intro dm id h
    rw [List.foldl_cons]
    rcases List.mem_cons.mp h with h | h
    · exact get_device_foldl_remove_none rest (dm.remove_device j) id
        (by rw [get_device_remove, if_pos h])
    · exact ih _ id h

/-! ### Fold-of-max lemmas (`get_max_latency`) -/

theorem foldl_max_ge_init (f : α → ℚ) :
    ∀ (l : List α) (a : ℚ), a ≤ l.foldl (fun m x => max m (f x)) a := by
  intro l
  induction l with
  | nil => intro a; exact le_refl a
  | cons y t ih =>
    intro a
    calc a ≤ max a (f y) := le_max_left a (f y)
      _ ≤ t.foldl (fun m x => max m (f x)) (max a (f y)) := ih (max a (f y))

theorem foldl_max_ge_mem (f : α → ℚ) :
    ∀ (l : List α) (a : ℚ) (x : α), x ∈ l →
      f x ≤ l.foldl (fun m x => max m (f x)) a := by
  intro l
  induction l with
  | nil => intro a x h; simp at h
  | cons y t ih =>
    intro a x h
    rcases List.mem_cons.mp h with h | h
    · calc f x = f y := by rw [h]
        _ ≤ max a (f y) := le_max_right a (f y)
        _ ≤ t.foldl (fun m x => max m (f x)) (max a (f y)) := foldl_max_ge_init f t _
    · exact ih (max a (f y)) x h

theorem foldl_max_attained (f : α → ℚ) :
    ∀ (l : List α) (a : ℚ),
      l.foldl (fun m x => max m (f x)) a = a ∨
        ∃ x ∈ l, l.foldl (fun m x => max m (f x)) a = f x := by
  intro l
  induction l with
  | nil => intro a; exact Or.inl rfl
  | cons y t ih =>
    intro a
    rcases ih (max a (f y)) with h | ⟨x, hx, h⟩
    · rcases max_choice a (f y) with hm | hm
      · exact Or.inl (by rw [List.foldl_cons, h, hm])
      · exact Or.inr ⟨y, List.mem_cons_self y t, by rw [List.foldl_cons, h, hm]⟩
    · exact Or.inr ⟨x, List.mem_cons_of_mem _ hx, by rw [List.foldl_cons, h]⟩

theorem get_max_latency_ge (dm : DeviceManager) (p : String × DeviceInfo)
    (h : p ∈ dm.devices) : dm.get_average_latency p.1 ≤ dm.get_max_latency := by
  exact foldl_max_ge_mem _ dm.devices 0 p h

theorem get_max_latency_attained (dm : DeviceManager) :
    dm.get_max_latency = 0 ∨
      ∃ p ∈ dm.devices, dm.get_max_latency = dm.get_average_latency p.1 := by
  exact foldl_max_attained _ dm.devices 0

/-! ### Streaming-loop lemmas -/

theorem chunk_duration_pos : 0 < chunk_duration := by
  unfold chunk_duration
  norm_num

theorem streamMsgsAux_getElem? (sync : ℚ) (total : ℕ) :
    ∀ (cs : List (List (ℚ × ℚ))) (i j : ℕ),
      (streamMsgsAux sync total i cs)[j]? =
        cs[j]?.map fun c =>
          .audio_chunk (i + j) (chunk_timestamp sync (i + j)) c
            (decide (i + j = total - 1)) := by
  intro cs
  induction cs with
  | nil => intro i j; simp [streamMsgsAux]
  | cons c rest ih =>
    intro i j
    cases j with
    | zero =>
      simp [streamMsgsAux]
    | succ j' =>
      rw [streamMsgsAux]
      rw [List.getElem?_cons_succ, List.getElem?_cons_succ, ih (i + 1) j']
      have harith : i + 1 + j' = i + (j' + 1) := by omega
      rw [harith]

theorem stream_messages_getElem? (sync : ℚ) (chunks : List (List (ℚ × ℚ)))
    (i : ℕ) :
    (stream_messages sync chunks)[i]? =
      chunks[i]?.map fun c =>
        .audio_chunk i (chunk_timestamp sync i) c
          (decide (i = chunks.length - 1)) := by
  unfold stream_messages
  have h := streamMsgsAux_getElem? sync chunks.length chunks 0 i
  simpa using h

/-! ### Chunk-splitting lemmas -/

theorem chunksWF_nil (k : ℕ) : chunksWF k ([] : List α) = [] := by
  rw [chunksWF]

theorem chunksWF_cons (k : ℕ) (a : α) (l : List α) :
    chunksWF k (a :: l) = ((a :: l).take (k + 1)) :: chunksWF k (l.drop k) := by
  rw [chunksWF]

theorem chunksWF_length (k : ℕ) :
    ∀ l : List α, (chunksWF k l).length = (l.length + k) / (k + 1) := by
  intro l
  induction l using chunksWF.induct (k := k) with
  | case1 => simp [chunksWF_nil, Nat.div_eq_of_lt]
  | case2 a l ih =>
    rw [chunksWF_cons, List.length_cons, ih, List.length_drop, List.length_cons]
    have hr : l.length + 1 + k = l.length + (k + 1) := by omega
    rw [hr, Nat.add_div_right _ (Nat.succ_pos k)]
    congr 1
    rcases le_or_lt k l.length with hk | hk
    · congr 1
      omega
    · rw [Nat.div_eq_of_lt (by omega), Nat.div_eq_of_lt (by omega)]

theorem chunksWF_flatten (k : ℕ) :
    ∀ l : List α, (chunksWF k l).flatten = l := by
  intro l
  induction l using chunksWF.induct (k := k) with
  | case1 => simp [chunksWF_nil]
  | case2 a l ih =>
    rw [chunksWF_cons, List.flatten_cons, ih, List.take_succ_cons,
      List.cons_append, List.take_append_drop]

theorem chunksWF_getElem? (k : ℕ) :
    ∀ (l : List α) (i : ℕ), i < (chunksWF k l).length →
      (chunksWF k l)[i]? = some ((l.drop (i * (k + 1))).take (k + 1)) := by
  intro l
  induction l using chunksWF.induct (k := k) with
  | case1 =>
    intro i hi
    rw [chunksWF_nil] at hi
    simp at hi
  | case2 a l ih =>
    intro i hi
    rw [chunksWF_cons] at hi ⊢
    cases i with
    | zero =>
      rw [List.getElem?_cons_zero]
      simp
    | succ j =>
      rw [List.getElem?_cons_succ]
      rw [List.length_cons] at hi
      rw [ih j (by omega)]
      have h1 : (j + 1) * (k + 1) = j * (k + 1) + k + 1 := by ring
      rw [h1, List.drop_succ_cons, List.drop_drop, Nat.add_comm k (j * (k + 1))]

theorem chunksWF_mem_length_le (k : ℕ) :
    ∀ l : List α, ∀ c ∈ chunksWF k l, c.length ≤ k + 1 := by
  intro l
  induction l using chunksWF.induct (k := k) with
  | case1 =>
    intro c hc
    rw [chunksWF_nil] at hc
    simp at hc
  | case2 a l ih =>
    intro c hc
    rw [chunksWF_cons] at hc
    rcases List.mem_cons.mp hc with hc | hc
    · rw [hc, List.length_take]
      exact min_le_left _ _
    · exact ih c hc

/-- Every chunk but the last holds exactly `k + 1` samples. -/
theorem chunksWF_getElem?_of_not_last (k : ℕ) (l : List α) (i : ℕ)
    (h : i + 1 < (chunksWF k l).length) :
    ∃ c, (chunksWF k l)[i]? = some c ∧ c.length = k + 1 := by
  have hi : i < (chunksWF k l).length := by omega
  refine ⟨_, chunksWF_getElem? k l i hi, ?_⟩
  rw [List.length_take, List.length_drop]
  rw [chunksWF_length] at h
  have hcount : (i + 2) * (k + 1) ≤ ((l.length + k) / (k + 1)) * (k + 1) :=
    Nat.mul_le_mul_right _ (by omega)
  have hdm : ((l.length + k) / (k + 1)) * (k + 1) ≤ l.length + k :=
    Nat.div_mul_le_self _ _
  have hexp : (i + 2) * (k + 1) = i * (k + 1) + 2 * k + 2 := by ring
  omega

/-! ### Connect-only registration lemmas -/

theorem mkClientId_not_mem_range (n : ℕ) :
    mkClientId n ∉ (List.range n).map mkClientId := by
  intro h
  rcases List.mem_map.mp h with ⟨i, hi, hieq⟩
  have := mkClientId_injective hieq
  rw [List.mem_range] at hi
  omega

/-- Starting from the empty server, `n` connects with no disconnect leave
the registered ids exactly `client_0 … client_{n-1}`. -/
theorem connectOnly_eq (n : ℕ) :
    applyEvents [] (List.replicate n ClientEvent.connect) =
      (List.range n).map mkClientId := by
  induction n with
  | zero => rfl
  | succ n ih =>
    rw [List.replicate_succ']
    unfold applyEvents at ih ⊢
    rw [List.foldl_append, ih]
    show connectClient ((List.range n).map mkClientId) = _
    unfold connectClient
    have hlen : newClientId ((List.range n).map mkClientId) = mkClientId n := by
      unfold newClientId
      rw [List.length_map, List.length_range]
    rw [hlen, if_neg (mkClientId_not_mem_range n), List.range_succ, List.map_append]
    rfl

/-! ## Claim theorems -/

/-- C1, counterexample: an accepted start command (server idle, here the
fresh server at `now = 0`) does NOT set
`sync_timestamp = now + get_synchronization_delay() + 2`; the source sets
`time.time() + 2` and never consults the registry's delay (which is at least
0.1). -/
theorem c1_start_timestamp_counterexample :
    ServerState.init.is_streaming = false ∧
    (ServerState.init.start_audio_streaming 0 none).1.sync_timestamp ≠
      0 + ServerState.init.device_manager.get_synchronization_delay + 2 := by
  constructor
  · rfl
  · show (0 : ℚ) + 2 ≠ 0 + (0 + 1/10) + 2
    norm_num

/-- C1, amended: when a start command is accepted (no session active), the
session's start timestamp is set to the current time plus the fixed
2-second lead only; `get_synchronization_delay()` is not added. -/
theorem c1_start_timestamp_amended (s : ServerState) (now : ℚ)
    (file : Option String) (h : s.is_streaming = false) :
    (s.start_audio_streaming now file).1.sync_timestamp = now + 2 ∧
    (s.start_audio_streaming now file).1.is_streaming = true := by
  unfold ServerState.start_audio_streaming
  rw [h]
  simp

/-- Witness for C1's amended theorem at the fresh server and `now = 5`. -/
theorem c1_start_timestamp_amended_witness :
    (ServerState.init.start_audio_streaming 5 none).1.sync_timestamp = 5 + 2 ∧
    (ServerState.init.start_audio_streaming 5 none).1.is_streaming = true :=
  c1_start_timestamp_amended ServerState.init 5 none rfl

/-- C3, counterexample: `stop()` on an idle server with one connected client
is not a complete no-op — the state does stay idle, but a `stop_streaming`
message is still broadcast to the client. -/
theorem c3_stop_counterexample :
    idleServerOneClient.is_streaming = false ∧
    idleServerOneClient.stop_audio_streaming.2 ≠ [] := by
  constructor
  · rfl
  · decide

/-- C3, amended: `stop()` with no active session leaves the server state
unchanged (still idle), but unconditionally broadcasts a `stop_streaming`
message to every connected client. -/
theorem c3_stop_amended (s : ServerState) (h : s.is_streaming = false) :
    s.stop_audio_streaming.1 = s ∧
    s.stop_audio_streaming.2 =
      s.clients.map fun c => (c, ServerMsg.stop_streaming) := by
  constructor
  · unfold ServerState.stop_audio_streaming
    cases s
    simp only at h
    simp [h]
  · rfl

/-- Witness for C3's amended theorem at the idle one-client server. -/
theorem c3_stop_amended_witness :
    idleServerOneClient.stop_audio_streaming.1 = idleServerOneClient ∧
    idleServerOneClient.stop_audio_streaming.2 =
      idleServerOneClient.clients.map fun c => (c, ServerMsg.stop_streaming) :=
  c3_stop_amended idleServerOneClient rfl

/-- C4, counterexample: recording a latency sample for the unknown device
`"d"` in an empty registry is not ignored — it creates a fresh latency
window `[0.5]` for `"d"` and so changes the registry state. -/
theorem c4_unknown_latency_counterexample :
    DeviceManager.empty.get_device "d" = none ∧
    DeviceManager.empty.update_device_latency "d" (1/2) ≠ DeviceManager.empty ∧
    alookup "d"
        (DeviceManager.empty.update_device_latency "d" (1/2)).device_latencies =
      some [1/2] := by
  refine ⟨rfl, ?_, rfl⟩
  intro h
  have := congrArg (fun d => d.device_latencies.length) h
  simp [DeviceManager.empty, DeviceManager.update_device_latency, upsert] at this

/-- C4, amended: recording a latency sample for a device id that is not
registered (and has no leftover window) creates a latency window holding
exactly that sample; the `devices` table itself is unchanged. -/
theorem c4_unknown_latency_amended (dm : DeviceManager) (id : String) (x : ℚ)
    (_hdev : dm.get_device id = none)
    (hwin : alookup id dm.device_latencies = none) :
    alookup id (dm.update_device_latency id x).device_latencies = some [x] ∧
    (dm.update_device_latency id x).devices = dm.devices := by
  refine ⟨?_, update_device_latency_devices dm id x⟩
  rw [update_device_latency_window, hwin]
  rfl

/-- Witness for C4's amended theorem at the empty registry. -/
theorem c4_unknown_latency_amended_witness :
    alookup "d"
        (DeviceManager.empty.update_device_latency "d" (3/4)).device_latencies =
      some [3/4] ∧
    (DeviceManager.empty.update_device_latency "d" (3/4)).devices =
      DeviceManager.empty.devices :=
  c4_unknown_latency_amended DeviceManager.empty "d" (3/4) rfl rfl

/-- C2, counterexample: in a registry whose only device was last seen 100 s
ago (no active device at `now = 0`, as `get_device_list` confirms) but has a
recorded latency of 0.5 s, `get_synchronization_delay()` is 0.6, not the
0.1 the claim requires for "no active device": `get_max_latency` ranges over
ALL registered devices, not just active ones. -/
theorem c2_sync_delay_counterexample :
    dmStale.get_device_list 0 = [] ∧
    dmStale.get_synchronization_delay ≠ 1/10 := by
  constructor
  · unfold DeviceManager.get_device_list dmStale mkDevice
    norm_num
  · show dmStale.get_max_latency + 1/10 ≠ 1/10
    unfold DeviceManager.get_max_latency dmStale mkDevice
      DeviceManager.get_average_latency alookup
    norm_num

/-- C2, amended: `synchronizationDelay()` is 0.1 plus the fold of `max`
(from 0) of `averageLatency` over ALL registered devices — active or not;
it equals 0.1 exactly when the registry holds no devices at all (while a
registry with only inactive devices can exceed it, see the
counterexample). -/
theorem c2_sync_delay_amended (dm : DeviceManager) :
    dm.get_synchronization_delay = dm.get_max_latency + 1/10 ∧
    (∀ p ∈ dm.devices,
      dm.get_average_latency p.1 + 1/10 ≤ dm.get_synchronization_delay) ∧
    (dm.get_max_latency = 0 ∨
      ∃ p ∈ dm.devices, dm.get_max_latency = dm.get_average_latency p.1) ∧
    (dm.devices = [] → dm.get_synchronization_delay = 1/10) := by
  refine ⟨rfl, ?_, get_max_latency_attained dm, ?_⟩
  · intro p hp
    have := get_max_latency_ge dm p hp
    unfold DeviceManager.get_synchronization_delay
    linarith
  · intro h
    unfold DeviceManager.get_synchronization_delay DeviceManager.get_max_latency
    rw [h]
    simp

/-- Witness for C2's amended theorem: the stale (inactive) device of
`dmStale` still bounds the delay, and the empty registry yields 0.1. -/
theorem c2_sync_delay_amended_witness :
    (dmStale.get_average_latency "a" + 1/10 ≤ dmStale.get_synchronization_delay) ∧
    DeviceManager.empty.get_synchronization_delay = 1/10 :=
  ⟨(c2_sync_delay_amended dmStale).2.1 ("a", mkDevice "a" (-100))
      (List.mem_cons_self _ _),
   (c2_sync_delay_amended DeviceManager.empty).2.2.2 rfl⟩

/-- C5, counterexample: after connect, connect, disconnect of `client_0`,
the next connect is assigned `client_1` — the identifier of a device that
is still registered: ids derived from `len(self.clients)` are reused. -/
theorem c5_id_reuse_counterexample :
    newClientId (applyEvents [] reuseHistory) ∈ applyEvents [] reuseHistory := by
  decide

/-- C5, amended: the assigned identifier is `client_N` with `N` the current
client count, so it is fresh for every history of connects with no
disconnect; after a disconnect it can collide with a still-registered id
(see the counterexample). -/
theorem c5_fresh_ids_amended (n : ℕ) :
    newClientId (applyEvents [] (List.replicate n ClientEvent.connect)) ∉
      applyEvents [] (List.replicate n ClientEvent.connect) := by
  rw [connectOnly_eq]
  have hlen : newClientId ((List.range n).map mkClientId) = mkClientId n := by
    unfold newClientId
    rw [List.length_map, List.length_range]
  rw [hlen]
  exact mkClientId_not_mem_range n

/-- Witness for C5's amended theorem after three connects. -/
theorem c5_fresh_ids_amended_witness :
    newClientId (applyEvents [] (List.replicate 3 ClientEvent.connect)) ∉
      applyEvents [] (List.replicate 3 ClientEvent.connect) :=
  c5_fresh_ids_amended 3

/-- C6: latency windows are FIFO and never exceed 10 samples: any sequence
of `update_device_latency` calls preserves the bound, a full window of 10
evicts its oldest sample keeping the 10 most recent in order, and a
non-full window simply appends. -/
theorem c6_latency_window_fifo :
    (∀ (dm : DeviceManager) (calls : List (String × ℚ)),
      WindowsBounded dm →
      WindowsBounded (calls.foldl (fun d c => d.update_device_latency c.1 c.2) dm)) ∧
    (∀ (dm : DeviceManager) (id : String) (x : ℚ),
      ((alookup id dm.device_latencies).getD []).length = 10 →
      alookup id (dm.update_device_latency id x).device_latencies =
        some (((alookup id dm.device_latencies).getD []).tail ++ [x])) ∧
    (∀ (dm : DeviceManager) (id : String) (x : ℚ),
      ((alookup id dm.device_latencies).getD []).length < 10 →
      alookup id (dm.update_device_latency id x).device_latencies =
        some ((alookup id dm.device_latencies).getD [] ++ [x])) := by
  refine ⟨?_, ?_, ?_⟩
  · intro dm calls h
    exact windowsBounded_foldl calls dm h
  · intro dm id x h
    rw [update_device_latency_window, pushLatency_full _ _ h]
  · intro dm id x h
    rw [update_device_latency_window, pushLatency_not_full _ _ h]

/-- Witness for C6 at an empty registry and at a full 10-sample window. -/
theorem c6_latency_window_fifo_witness :
    WindowsBounded ([(("a" : String), (1 : ℚ))].foldl
      (fun d c => d.update_device_latency c.1 c.2) DeviceManager.empty) ∧
    alookup "a" (dmTen.update_device_latency "a" 11).device_latencies =
      some (((alookup "a" dmTen.device_latencies).getD []).tail ++ [11]) :=
  ⟨c6_latency_window_fifo.1 DeviceManager.empty [("a", 1)]
      (fun p hp => absurd hp (List.not_mem_nil p)),
   c6_latency_window_fifo.2.1 dmTen "a" 11 (by decide)⟩

/-- C7: a registered device last seen 31 s ago is absent from the active
list but still retrievable; one last seen 61 s ago is removed by the 60 s
inactivity sweep and counted among the purged. -/
theorem c7_active_window_and_purge (dm : DeviceManager) (now : ℚ) (id : String)
    (d : DeviceInfo) (hreg : dm.get_device id = some d) :
    (d.last_seen = now - 31 →
      (∀ q ∈ dm.get_device_list now, q.1 ≠ d) ∧ dm.get_device id = some d) ∧
    (d.last_seen = now - 61 →
      (dm.cleanup_inactive_devices now 60).1.get_device id = none ∧
      1 ≤ (dm.cleanup_inactive_devices now 60).2) := by
  constructor
  · intro h31
    refine ⟨?_, hreg⟩
    intro q hq hqd
    have := mem_get_device_list_recent dm now q hq
    rw [hqd, h31] at this
    linarith
  · intro h61
    have hmem : (id, d) ∈ dm.devices := alookup_mem _ _ _ hreg
    have hcond : decide (now - d.last_seen > 60) = true := by
      rw [decide_eq_true_eq, h61]
      linarith
    have hin : id ∈
        (dm.devices.filter fun p => decide (now - p.2.last_seen > 60)).map
          fun p => p.1 :=
      List.mem_map.mpr ⟨(id, d), List.mem_filter.mpr ⟨hmem, hcond⟩, rfl⟩
    refine ⟨get_device_foldl_remove _ _ _ hin, ?_⟩
    show 1 ≤ ((dm.devices.filter fun p => decide (now - p.2.last_seen > 60)).map
      fun p => p.1).length
    exact List.length_pos.mpr (List.ne_nil_of_mem hin)

/-- Witness for C7 at the one-device registries `dm31` and `dm61`
(`now = 0`). -/
theorem c7_active_window_and_purge_witness :
    ((∀ q ∈ dm31.get_device_list 0, q.1 ≠ mkDevice "a" (-31)) ∧
      dm31.get_device "a" = some (mkDevice "a" (-31))) ∧
    ((dm61.cleanup_inactive_devices 0 60).1.get_device "a" = none ∧
      1 ≤ (dm61.cleanup_inactive_devices 0 60).2) :=
  ⟨(c7_active_window_and_purge dm31 0 "a" (mkDevice "a" (-31)) rfl).1
      (by norm_num [mkDevice]),
   (c7_active_window_and_purge dm61 0 "a" (mkDevice "a" (-61)) rfl).2
      (by norm_num [mkDevice])⟩

/-- C8: splitting a buffer with byte budget `chunk_size` partitions it into
consecutive windows of `samples_per_chunk = chunk_size / (channels * 4)`
samples (element width 4 = float32), the final window possibly shorter, and
the window count is the ceiling `(len + spc - 1) / spc` (here
`(len + k) / (k + 1)` with `spc = k + 1`); in particular 441000 stereo
samples with budget 4096 give 862 chunks of 512 samples, the last holding
168. -/
theorem c8_split_window_count :
    (∀ (audio : List (ℚ × ℚ)) (chunk_size channels k : ℕ),
      chunk_size / (channels * 4) = k + 1 →
      ∃ chunks, split_into_chunks audio chunk_size channels = some chunks ∧
        chunks.length = (audio.length + k) / (k + 1) ∧
        (∀ i, i < chunks.length →
          chunks[i]? = some ((audio.drop (i * (k + 1))).take (k + 1))) ∧
        (∀ i, i + 1 < chunks.length →
          ∃ c, chunks[i]? = some c ∧ c.length = k + 1) ∧
        (∀ c ∈ chunks, c.length ≤ k + 1)) ∧
    (∃ chunks,
      split_into_chunks (List.replicate 441000 ((0 : ℚ), (0 : ℚ))) 4096 2 =
        some chunks ∧
      chunks.length = 862 ∧
      chunks.getLast? = some (List.replicate 168 ((0 : ℚ), (0 : ℚ))) ∧
      ∀ i, i + 1 < chunks.length →
        chunks[i]? = some (List.replicate 512 ((0 : ℚ), (0 : ℚ)))) := by
  constructor
  · intro audio chunk_size channels k hk
    refine ⟨chunksWF k audio, ?_, chunksWF_length k audio, chunksWF_getElem? k audio,
      chunksWF_getElem?_of_not_last k audio, chunksWF_mem_length_le k audio⟩
    unfold split_into_chunks
    rw [hk]
  · have hlen : (chunksWF 511 (List.replicate 441000 ((0 : ℚ), (0 : ℚ)))).length
        = 862 := by
      rw [chunksWF_length, List.length_replicate]
    refine ⟨chunksWF 511 (List.replicate 441000 ((0 : ℚ), (0 : ℚ))), rfl, hlen,
      ?_, ?_⟩
    · rw [List.getLast?_eq_getElem?, hlen]
      rw [chunksWF_getElem? 511 _ 861 (by rw [hlen]; omega)]
      rw [List.drop_replicate, List.take_replicate]
      norm_num
    · intro i hi
      rw [hlen] at hi
      rw [chunksWF_getElem? 511 _ i (by rw [hlen]; omega)]
      rw [List.drop_replicate, List.take_replicate]
      have hmul : i * 512 ≤ 860 * 512 := Nat.mul_le_mul_right _ (by omega)
      have hmin : (512 : ℕ) ⊓ (441000 - i * 512) = 512 :=
        min_eq_left (by omega)
      rw [hmin]

/-- Witness for C8's general part: one stereo frame, budget 8 bytes,
`samples_per_chunk = 2`. -/
theorem c8_split_window_count_witness :
    ∃ chunks, split_into_chunks [((0 : ℚ), (0 : ℚ))] 8 1 = some chunks ∧
      chunks.length = (([((0 : ℚ), (0 : ℚ))] : List (ℚ × ℚ)).length + 1) / (1 + 1) ∧
      (∀ i, i < chunks.length →
        chunks[i]? = some ((([((0 : ℚ), (0 : ℚ))] : List (ℚ × ℚ)).drop
          (i * (1 + 1))).take (1 + 1))) ∧
      (∀ i, i + 1 < chunks.length → ∃ c, chunks[i]? = some c ∧ c.length = 1 + 1) ∧
      (∀ c ∈ chunks, c.length ≤ 1 + 1) :=
  c8_split_window_count.1 [((0 : ℚ), (0 : ℚ))] 8 1 1 (by decide)

/-- C9: chunk `i` of a streaming run carries target timestamp
`sync_timestamp + i * chunk_duration`, computed from the fixed sync
timestamp and the index alone (never from the clock or from earlier sends),
and these targets are strictly increasing in the index. -/
theorem c9_chunk_targets (sync : ℚ) (chunks : List (List (ℚ × ℚ))) :
    (∀ (i : ℕ) (c : List (ℚ × ℚ)), chunks[i]? = some c →
      (stream_messages sync chunks)[i]? =
        some (.audio_chunk i (sync + i * chunk_duration) c
          (decide (i = chunks.length - 1)))) ∧
    (∀ (i j : ℕ) (mi mj : ServerMsg), i < j →
      (stream_messages sync chunks)[i]? = some mi →
      (stream_messages sync chunks)[j]? = some mj →
      mi.timestamp < mj.timestamp) := by
  constructor
  · intro i c hc
    rw [stream_messages_getElem?, hc]
    rfl
  · intro i j mi mj hij hmi hmj
    rw [stream_messages_getElem?] at hmi hmj
    rcases Option.map_eq_some'.mp hmi with ⟨ci, hci, hmi'⟩
    rcases Option.map_eq_some'.mp hmj with ⟨cj, hcj, hmj'⟩
    rw [← hmi', ← hmj']
    show chunk_timestamp sync i < chunk_timestamp sync j
    unfold chunk_timestamp
    have hd := chunk_duration_pos
    have hcast : (i : ℚ) < (j : ℚ) := by exact_mod_cast hij
    have := mul_lt_mul_of_pos_right hcast hd
    linarith

/-- Witness for C9 on the two-chunk buffer `chunks2` at `sync = 0`. -/
theorem c9_chunk_targets_witness :
    ServerMsg.timestamp
        (.audio_chunk 0 ((0 : ℚ) + 0 * chunk_duration) [(0, 0)]
          (decide (0 = chunks2.length - 1))) <
      ServerMsg.timestamp
        (.audio_chunk 1 ((0 : ℚ) + 1 * chunk_duration) [(0, 0)]
          (decide (1 = chunks2.length - 1))) :=
  (c9_chunk_targets 0 chunks2).2 0 1 _ _ Nat.zero_lt_one
    ((c9_chunk_targets 0 chunks2).1 0 [(0, 0)] rfl)
    ((c9_chunk_targets 0 chunks2).1 1 [(0, 0)] rfl)

/-- C10: with a byte budget of at least one frame (`channels * 4` bytes,
`channels > 0`), splitting never loses, duplicates or reorders samples —
concatenating the chunks in order gives back the buffer — and every chunk
except possibly the last holds exactly `samples_per_chunk` samples. -/
theorem c10_split_concat (audio : List (ℚ × ℚ)) (chunk_size channels : ℕ)
    (hch : 0 < channels) (hbudget : channels * 4 ≤ chunk_size) :
    ∃ chunks, split_into_chunks audio chunk_size channels = some chunks ∧
      chunks.flatten = audio ∧
      ∀ i, i + 1 < chunks.length →
        ∃ c, chunks[i]? = some c ∧ c.length = chunk_size / (channels * 4) := by
  have hspc : 0 < chunk_size / (channels * 4) :=
    Nat.div_pos hbudget (by omega)
  obtain ⟨k, hk⟩ : ∃ k, chunk_size / (channels * 4) = k + 1 :=
    ⟨chunk_size / (channels * 4) - 1, by omega⟩
  refine ⟨chunksWF k audio, ?_, chunksWF_flatten k audio, ?_⟩
  · unfold split_into_chunks
    rw [hk]
  · intro i hi
    rw [hk]
    exact chunksWF_getElem?_of_not_last k audio i hi

/-- Witness for C10: two stereo frames, budget 4 bytes, one channel. -/
theorem c10_split_concat_witness :
    ∃ chunks,
      split_into_chunks [((0 : ℚ), (0 : ℚ)), ((1 : ℚ), (1 : ℚ))] 4 1 =
        some chunks ∧
      chunks.flatten = [((0 : ℚ), (0 : ℚ)), ((1 : ℚ), (1 : ℚ))] ∧
      ∀ i, i + 1 < chunks.length →
        ∃ c, chunks[i]? = some c ∧ c.length = 4 / (1 * 4) :=
  c10_split_concat [((0 : ℚ), (0 : ℚ)), ((1 : ℚ), (1 : ℚ))] 4 1
    (by decide) (by decide)

end AudioSync
